import Mathlib

/-!
Verification of `crypto-wallet.py` (Python 3) against its specification.

The file shallowly embeds the arithmetic core of the program:
`rabin_miller`, `is_prime`, `string_to_int`, `new_random_prime`, `gcd`
(`pygcd` here, to avoid clashing with library names), `multiplicative_inverse`
and `generate_keypair`.

Modelling conventions:
* Python arbitrary-precision non-negative integers are `Nat`, signed ones `Int`.
* Python 3 `/` on integers is *true division* producing a float.  Where the
  program uses it (`multiplicative_inverse`, and `int(r/2)` in `rabin_miller`)
  we model the float value exactly: in `multiplicative_inverse` every
  intermediate stays a rational, so the loop is embedded over `ℚ` (this agrees
  with IEEE doubles whenever no rounding occurs, which is checked by hand for
  every concrete input used in a theorem below); `int(r/2)` is modelled as
  53-bit round-to-nearest-even of the exact half (`intHalf`).
* `random.randrange(lo, hi)` raises `ValueError` when `hi ≤ lo`; fallible
  functions therefore return `Option` with `none` for the raised exception.
* Randomness is passed in explicitly: a byte list for `urandom`, and draw
  streams (functions from the draw index) for `randrange`.
* Unbounded `while` loops are embedded with an explicit fuel argument;
  exhausted fuel yields `none` where the distinction matters.  Every theorem
  below either quantifies over the fuel or supplies a concrete sufficient one.
-/

/- `RABIN_MILLER_ITERATIONS = 40` from the top of the source file. -/
def RABIN_MILLER_ITERATIONS : Nat := 40

/- Bit length of a natural number, fuel-based so that it reduces in the
kernel (`fuel ≥ n` suffices since the argument at least halves each step). -/
def bitsF : Nat → Nat → Nat
  | 0, _ => 0
  | fuel + 1, n => if n = 0 then 0 else bitsF fuel (n / 2) + 1

def bits (n : Nat) : Nat := bitsF n n

/- Round-to-nearest, ties-to-even, of an integer to 53 significant bits:
the value of the IEEE-754 double nearest to `k` (for `k` far below the
overflow threshold `2^1024`, which covers every use in this file). -/
def rnd53 (k : Nat) : Nat :=
  if k ≤ 2 ^ 53 then k
  else
    let e := bits k - 53
    let q := k / 2 ^ e
    let rem := k % 2 ^ e
    let half := 2 ^ (e - 1)
    if rem < half then q * 2 ^ e
    else if half < rem then (q + 1) * 2 ^ e
    else if q % 2 = 0 then q * 2 ^ e else (q + 1) * 2 ^ e

/- Python 3 `int(r/2)`: true division of `r` by 2 (a float, i.e. the exact
quotient rounded to double precision) truncated back to an integer.  The
program only applies it to even `r`, where the exact quotient `r / 2` is an
integer and truncation is the identity, so the result is `rnd53 (r / 2)`. -/
def intHalf (r : Nat) : Nat := rnd53 (r / 2)

/- The `while (r%2)==0: s+=1; r=int(r/2)` loop at the top of `rabin_miller`,
returning `(s, r)`.  Fuel decreases once per iteration; the initial `r` is
enough fuel since `r` strictly decreases while it is even and positive. -/
def factorLoop : Nat → Nat → Nat → Nat × Nat
  | 0, s, r => (s, r)
  | fuel + 1, s, r =>
    if r % 2 = 0 then factorLoop fuel (s + 1) (intHalf r) else (s, r)

/- `s`, `r` as computed by `rabin_miller` from `possiblePrime - 1`. -/
def factorOut (m : Nat) : Nat × Nat := factorLoop m 0 m

/- The inner `while ( j <= s-1 and y!=possiblePrime-1 )` squaring loop of
`rabin_miller`: at most `count` body executions; `none` models the early
`return False` on `y == 1`, `some y` the final value of `y` otherwise. -/
def sqChain (pp : Nat) : Nat → Nat → Option Nat
  | 0, y => some y
  | count + 1, y =>
    if y = pp - 1 then some y
    else
      let y2 := y * y % pp
      if y2 = 1 then Option.none else sqChain pp count y2

/- `rabin_miller(possiblePrime, aTestInteger)` (HAC 4.24 single trial).
`pow(a, r, n)` is modelled as `a ^ r % n`. -/
def rabin_miller (pp : Nat) (a : Nat) : Bool :=
  let sr := factorOut (pp - 1)
  let s := sr.1
  let r := sr.2
  let y := a ^ r % pp
  if y ≠ 1 ∧ y ≠ pp - 1 then
    match sqChain pp (s - 1) y with
    | Option.none => false
    | some yfin => if yfin ≠ pp - 1 then false else true
  else true

/- The fixed trial-division list of the 55 primes up to 257 in `is_prime`. -/
def lowPrimes : List Nat :=
  [2, 3, 5, 7, 11, 13, 17, 19, 23, 29, 31, 37, 41, 43,
   47, 53, 59, 61, 67, 71, 73, 79, 83, 89, 97, 101,
   103, 107, 109, 113, 127, 131, 137, 139, 149, 151,
   157, 163, 167, 173, 179, 181, 191, 193, 197, 199,
   211, 223, 227, 229, 233, 239, 241, 251, 257]

/- The prescreening `for prime in (...)` loop of `is_prime`: `some b` when
some listed prime divides the candidate (`b` is the `possible_prime == prime`
test), `none` when the loop falls through. -/
def trialDivide (c : Nat) : List Nat → Option Bool
  | [] => Option.none
  | p :: ps =>
    if c % p = 0 then some (if c = p then true else false) else trialDivide c ps

/- The `for iteration in range( RABIN_MILLER_ITERATIONS )` loop of
`is_prime`: `draws i` is the witness returned by the `i`-th
`random.randrange(2, possible_prime - 1)` call. -/
def witnessLoop (c : Nat) (draws : Nat → Nat) : Nat → Nat → Bool
  | 0, _ => true
  | k + 1, i =>
    if rabin_miller c (draws i) then witnessLoop c draws k (i + 1) else false

/- `is_prime(possible_prime, verbose)`.  `verbose` only prints and is
dropped.  `none` models the `ValueError` raised by
`random.randrange(2, possible_prime - 1)` when its range is empty
(`possible_prime - 1 ≤ 2`), which can only be reached when trial division
falls through. -/
def is_prime (c : Nat) (draws : Nat → Nat) : Option Bool :=
  match trialDivide c lowPrimes with
  | some b => some b
  | Option.none =>
    if c - 1 ≤ 2 then Option.none
    else some (witnessLoop c draws RABIN_MILLER_ITERATIONS 0)

/- `string_to_int`: big-endian base-256 fold over the drawn bytes. -/
def string_to_int (octets : List Nat) : Nat :=
  octets.foldl (fun acc c => 256 * acc + c) 0

/- The `while True` search loop of `new_random_prime`: test, and on failure
advance by 2.  `wd i` is the witness-draw stream handed to the `i`-th
`is_prime` call; `none` models both a raised `ValueError` and exhausted fuel. -/
def primeSearch (wd : Nat → Nat → Nat) : Nat → Nat → Nat → Option Nat
  | 0, _, _ => Option.none
  | fuel + 1, cand, i =>
    match is_prime cand (wd i) with
    | Option.none => Option.none
    | some true => some cand
    | some false => primeSearch wd fuel (cand + 2) (i + 1)

/- `new_random_prime(size_in_bytes, debug)`: `octets` are the
`urandom(size_in_bytes)` bytes (each `< 256`), interpreted by
`string_to_int`, forced odd, then searched from. -/
def new_random_prime (octets : List Nat) (wd : Nat → Nat → Nat) (fuel : Nat) :
    Option Nat :=
  let pp := string_to_int octets
  let start := if pp % 2 = 0 then pp + 1 else pp
  primeSearch wd fuel start 0

/- The `while b != 0: a, b = b, a % b` loop of `gcd`.  Python `%` on ints is
floor modulus, i.e. `Int.fmod`.  Since `|a.fmod b| < |b|` for `b ≠ 0`, the
fuel `|b| + 1` supplied by `pygcd` is never exhausted. -/
def pygcdGo : Nat → Int → Int → Int
  | 0, a, _ => a
  | fuel + 1, a, b => if b = 0 then a else pygcdGo fuel b (Int.fmod a b)

/- `gcd(a, b)` from the source (named `pygcd` to avoid clashes). -/
def pygcd (a b : Int) : Int := pygcdGo (b.natAbs + 1) a b

/- The `while e > 0` loop of `multiplicative_inverse`.  In Python 3
`temp1 = temp_phi/e` is TRUE division (a float), not floor division; all loop
variables therefore become floats after the first iteration.  The float
arithmetic is modelled as exact rational arithmetic, under which
`temp2 = temp_phi - (temp_phi/e)*e = 0` and the loop stops after one
iteration when `e > 0`.  The real program agrees with this model exactly
when the IEEE evaluation gives `fl(fl(temp_phi/e)*e) = temp_phi`, so that
`temp2` is exactly `0.0`: this holds whenever `temp_phi/e` is a dyadic
rational with at most 53 significant bits and both operands are at most
`2^53` (the `floatExactPair` predicate below), and it was verified by hand
for every concrete input used in a theorem of this file — but it does not
hold everywhere: at `(e, phi) = (49, 2)` rounding leaves `temp2 = 2^-52 > 0`,
a second iteration runs, and the program returns `2 - fl(2/49) ≈ 1.959`.
Universal statements about `multiplicative_inverse` are therefore asserted
only under `floatExactPair`.  State order: `e, temp_phi, x1, x2, d, y1`. -/
def miLoop : Nat → ℚ → ℚ → ℚ → ℚ → ℚ → ℚ → ℚ
  | 0, _, _, _, _, d, _ => d
  | fuel + 1, e, temp_phi, x1, x2, d, y1 =>
    if 0 < e then
      let temp1 := temp_phi / e
      let temp2 := temp_phi - temp1 * e
      let x := x2 - temp1 * x1
      let y := d - temp1 * y1
      miLoop fuel temp2 e x x1 y1 y
    else d

/- `multiplicative_inverse(e, phi) = (loop result d) + phi`.  Initial state
`d = 0, x1 = 0, x2 = 1, y1 = 1, temp_phi = phi`.  The fuel 64 is far more
than the loop can consume (over `ℚ` it provably stops within two steps).
See the `miLoop` comment for the domain on which this model is faithful to
the program's IEEE-double evaluation. -/
def multiplicative_inverse (e phi : ℚ) : ℚ :=
  miLoop 64 e phi 0 1 0 1 + phi

/- The inputs `(e, phi)` on which the single float division performed by
`multiplicative_inverse` is exact, so the `ℚ` model provably coincides with
the program: `phi/e = a / 2^b` with `a ≤ 2^53` (the quotient is a dyadic
rational representable in a 53-bit significand; `b ≤ 1000` keeps it far from
the subnormal range), and `e, phi ≤ 2^53` (both convert to doubles exactly,
and the exact product `fl(phi/e)*e = phi` rounds to itself).  On this domain
`temp2` is exactly `0.0` and the program returns `phi + 1`. -/
def floatExactPair (e phi : Nat) : Prop :=
  e ≤ 2 ^ 53 ∧ phi ≤ 2 ^ 53 ∧
    ∃ a b : Nat, a ≤ 2 ^ 53 ∧ b ≤ 1000 ∧ phi * 2 ^ b = a * e

/- The `while g != 1` public-exponent search of `generate_keypair`:
`ed i` is the value of the `i`-th `random.randrange(1, phi)` call. -/
def exponentSearch (ed : Nat → Int) (phi : Int) : Nat → Nat → Option Int
  | 0, _ => Option.none
  | fuel + 1, i =>
    if pygcd (ed i) phi = 1 then some (ed i)
    else exponentSearch ed phi fuel (i + 1)

/- The `while (p == q): q = new_random_prime(SIZE)` loop of
`generate_keypair`: `bo k` / `wo k` are the byte and witness draws of the
`k`-th redraw. -/
def redrawLoop (bo : Nat → List Nat) (wo : Nat → Nat → Nat → Nat)
    (pfuel : Nat) (p : Int) : Nat → Int → Option Int
  | 0, q => if p = q then Option.none else some q
  | k + 1, q =>
    if p = q then
      match new_random_prime (bo k) (wo k) pfuel with
      | Option.none => Option.none
      | some q2 => redrawLoop bo wo pfuel p k (q2 : Int)
    else some q

/- `generate_keypair(p, q)`.  `none` models a raised `ValueError`
(`random.randrange(1, phi)` with `phi ≤ 1`) or exhausted fuel.  The private
exponent `d` is the float returned by `multiplicative_inverse`, hence `ℚ`. -/
def generate_keypair (p q : Int) (bo : Nat → List Nat)
    (wo : Nat → Nat → Nat → Nat) (pfuel : Nat) (ed : Nat → Int)
    (efuel : Nat) (rfuel : Nat) : Option ((Int × Int) × (ℚ × Int)) :=
  match redrawLoop bo wo pfuel p rfuel q with
  | Option.none => Option.none
  | some q2 =>
    let n := p * q2
    let phi := (p - 1) * (q2 - 1)
    if phi ≤ 1 then Option.none
    else
      match exponentSearch ed phi efuel 0 with
      | Option.none => Option.none
      | some e => some ((e, n), (multiplicative_inverse (e : ℚ) (phi : ℚ), n))

/- Concrete oracles used by closed witness statements. -/
def zeroDraws : Nat → Nat := fun _ => 0

def noBytes : Nat → List Nat := fun _ => []

def noWitness : Nat → Nat → Nat → Nat := fun _ _ _ => 0

def drawFive : Nat → Int := fun _ => 5

def flatWitness : Nat → Nat := fun _ => 0

def flatWitnessStream : Nat → Nat → Nat := fun _ _ => 0

def drawSeventeen : Nat → Int := fun _ => 17

/-! ### Helper lemmas about `multiplicative_inverse` -/

theorem miLoop_step (f : Nat) (e tp x1 x2 d y1 : ℚ) :
    miLoop (f + 1) e tp x1 x2 d y1 =
      if 0 < e then
        miLoop f (tp - tp / e * e) e (x2 - tp / e * x1) x1 y1 (d - tp / e * y1)
      else d := rfl

theorem miLoop_of_pos (f : Nat) (e tp x1 x2 d y1 : ℚ) (he : 0 < e) :
    miLoop (f + 2) e tp x1 x2 d y1 = y1 := by
  have he' : e ≠ 0 := ne_of_gt he
  have h0 : tp - tp / e * e = 0 := by
    rw [div_mul_cancel₀ _ he', sub_self]
  rw [show f + 2 = f + 1 + 1 from rfl, miLoop_step, if_pos he, h0, miLoop_step,
    if_neg (lt_irrefl 0)]

/-- Exact value of the Python-3 `multiplicative_inverse` for positive `e`:
since `temp1 = temp_phi/e` is true division, `temp2 = 0` and the loop stops
after a single iteration with `d = 1`, so the function returns `phi + 1`. -/
theorem multiplicative_inverse_of_pos (e phi : ℚ) (he : 0 < e) :
    multiplicative_inverse e phi = phi + 1 := by
  unfold multiplicative_inverse
  rw [show (64 : Nat) = 62 + 2 from rfl, miLoop_of_pos 62 e phi 0 1 0 1 he]
  ring

/-- C2 (code_bug evidence): at the coprime pair `(e, phi) = (4, 9)` (all
float operations are exact there: `9/4 = 2.25` and `2.25*4 = 9.0` are exact
doubles), the code returns `10`, and `(4 * 10) mod 9 = 4 ≠ 1`, so the
returned value is not a modular inverse as the claim demands (the true
inverse is 7).  The cause: `temp1 = temp_phi/e` is Python 3 true division,
not the floor division the extended Euclidean algorithm requires. -/
theorem multiplicative_inverse_not_inverse_at_4_9 :
    multiplicative_inverse 4 9 = 10 ∧ Nat.gcd 4 9 = 1 ∧ ¬((4 * 10 : Int) % 9 = 1) := by
  refine ⟨?_, by decide, by decide⟩
  rw [multiplicative_inverse_of_pos 4 9 (by norm_num)]
  norm_num

/-- C3 (counterexample): at the coprime pair `(e, phi) = (2, 9)` with
`phi > 1` (float-exact: `9/2 = 4.5` exactly), the code returns `10`, which
does not lie in `[0, phi) = [0, 9)`. -/
theorem multiplicative_inverse_out_of_range_cex :
    multiplicative_inverse 2 9 = 10 ∧ Nat.gcd 2 9 = 1 ∧ (1 : ℚ) < 9 ∧
      ¬(0 ≤ multiplicative_inverse 2 9 ∧ multiplicative_inverse 2 9 < 9) := by
  have h : multiplicative_inverse 2 9 = 10 := by
    rw [multiplicative_inverse_of_pos 2 9 (by norm_num)]; norm_num
  refine ⟨h, by decide, by norm_num, ?_⟩
  rw [h]
  norm_num

/-- C3 (amended): the returned value need not lie in `[0, phi)`.  On the
subdomain where the single float division is exact — `phi/e` a dyadic
rational with at most 53 significant bits and `e, phi ≤ 2^53`
(`floatExactPair`), which contains `e = 1` and the counterexample pair
`(2, 9)` — the code returns exactly `phi + 1`, which lies outside
`[0, phi)`.  Outside this subdomain the rounded loop can iterate further
and may return a value inside `[0, phi)` (e.g. `(49, 2)` returns
`2 - fl(2/49) ≈ 1.959`), so nothing is asserted there. -/
theorem multiplicative_inverse_out_of_range_amended (e phi : Nat) (he : 1 ≤ e)
    (_hphi : 1 < phi) (_hexact : floatExactPair e phi) :
    multiplicative_inverse (e : ℚ) (phi : ℚ) = (phi : ℚ) + 1 ∧
      ¬(0 ≤ multiplicative_inverse (e : ℚ) (phi : ℚ) ∧
        multiplicative_inverse (e : ℚ) (phi : ℚ) < (phi : ℚ)) := by
  have hepos : (0 : ℚ) < (e : ℚ) := by exact_mod_cast he
  have h := multiplicative_inverse_of_pos (e : ℚ) (phi : ℚ) hepos
  refine ⟨h, ?_⟩
  rw [h]
  intro hc
  linarith [hc.2]

/-- C3 (witness): the amended statement instantiated at the float-exact
coprime pair `(e, phi) = (2, 5)` (`5/2 = 2.5` is dyadic). -/
theorem multiplicative_inverse_out_of_range_witness :
    multiplicative_inverse ((2 : Nat) : ℚ) ((5 : Nat) : ℚ) = ((5 : Nat) : ℚ) + 1 ∧
      ¬(0 ≤ multiplicative_inverse ((2 : Nat) : ℚ) ((5 : Nat) : ℚ) ∧
        multiplicative_inverse ((2 : Nat) : ℚ) ((5 : Nat) : ℚ) < ((5 : Nat) : ℚ)) :=
  multiplicative_inverse_out_of_range_amended 2 5 (by norm_num) (by norm_num)
    ⟨by norm_num, by norm_num, 5, 1, by norm_num, by norm_num, by norm_num⟩

/-! ### Helper lemmas about the trial-division prescreen of `is_prime` -/

theorem trialDivide_false_of_dvd (c : Nat) :
    ∀ L : List Nat, (∀ x ∈ L, Nat.Prime x) →
      ∀ p ∈ L, p ∣ c → c ≠ p → trialDivide c L = some false := by
  intro L
  induction L with
  | nil => intro _ p hp; exact absurd hp (List.not_mem_nil p)
  | cons q qs ih =>
    intro hall p hp hdvd hne
    have hqprime : Nat.Prime q := hall q (List.mem_cons_self q qs)
    have hpprime : Nat.Prime p := hall p hp
    by_cases hq : c % q = 0
    · have hcq : c ≠ q := by
        intro hcq
        rcases (Nat.Prime.eq_one_or_self_of_dvd hqprime p (hcq ▸ hdvd)) with h1 | h1
        · exact Nat.Prime.ne_one hpprime h1
        · exact hne (hcq.trans h1.symm)
      simp [trialDivide, hq, hcq]
    · have hpq : p ≠ q := by
        intro hpq
        exact hq (Nat.mod_eq_zero_of_dvd (hpq ▸ hdvd))
      have hp' : p ∈ qs := by
        rcases List.mem_cons.mp hp with h | h
        · exact absurd h hpq
        · exact h
      simp only [trialDivide, if_neg hq]
      exact ih (fun x hx => hall x (List.mem_cons_of_mem q hx)) p hp' hdvd hne

theorem is_prime_of_trialDivide (c : Nat) (d : Nat → Nat) (b : Bool)
    (h : trialDivide c lowPrimes = some b) : is_prime c d = some b := by
  unfold is_prime
  rw [h]

/-- C5: every prime in the fixed trial-division list is accepted by
`is_prime` (for every witness-draw stream), and every candidate divisible by
a listed prime but different from it is rejected, regardless of the random
witness draws. -/
theorem is_prime_sieve_behavior :
    (∀ p ∈ lowPrimes, ∀ d : Nat → Nat, is_prime p d = some true) ∧
    (∀ (c : Nat) (d : Nat → Nat), (∃ p ∈ lowPrimes, p ∣ c ∧ c ≠ p) →
      is_prime c d = some false) := by
  constructor
  · have hall : ∀ p ∈ lowPrimes, trialDivide p lowPrimes = some true := by decide
    intro p hp d
    exact is_prime_of_trialDivide p d true (hall p hp)
  · intro c d hex
    rcases hex with ⟨p, hp, hdvd, hne⟩
    have hprimes : ∀ x ∈ lowPrimes, Nat.Prime x := by decide
    exact is_prime_of_trialDivide c d false
      (trialDivide_false_of_dvd c lowPrimes hprimes p hp hdvd hne)

/-- C5 (witness): the theorem applied at the listed prime 257 and at the
composite 514 = 2 · 257. -/
theorem is_prime_sieve_behavior_witness :
    is_prime 257 zeroDraws = some true ∧ is_prime 514 zeroDraws = some false :=
  ⟨is_prime_sieve_behavior.1 257 (by decide) zeroDraws,
   is_prime_sieve_behavior.2 514 zeroDraws ⟨2, by decide, by decide, by decide⟩⟩

/-- C6: `rabin_miller(341, 2)` returns `false`: with `340 = 2^2 · 85`,
`y = 2^85 mod 341 = 32`, and the squaring loop hits `32^2 mod 341 = 1`, the
nontrivial-square-root-of-1 early exit. -/
theorem rabin_miller_341_2_eq_false : rabin_miller 341 2 = false := by decide

/-- C10: `is_prime(1, _)` raises (`randrange(2, 0)` has an empty range)
instead of returning a Boolean, for every witness-draw stream; for every
other non-negative candidate, either the trial-division prescreen decides
the result or the witness range `[2, candidate-2]` is non-empty
(`candidate - 1 > 2`). -/
theorem is_prime_partiality :
    (∀ d : Nat → Nat, is_prime 1 d = Option.none) ∧
    (∀ c : Nat, c ≠ 1 → (trialDivide c lowPrimes).isSome = true ∨ 2 < c - 1) := by
  constructor
  · intro d; rfl
  · intro c hc
    by_cases h4 : 4 ≤ c
    · right; omega
    · left
      have h3 : c < 4 := by omega
      interval_cases c
      · decide
      · exact absurd rfl hc
      · decide
      · decide

/-- C10 (witness): the theorem applied to the draw stream `zeroDraws` and to
the candidate 0 (decided by the sieve: 0 is divisible by 2). -/
theorem is_prime_partiality_witness :
    is_prime 1 zeroDraws = Option.none ∧
      ((trialDivide 0 lowPrimes).isSome = true ∨ 2 < 0 - 1) :=
  ⟨is_prime_partiality.1 zeroDraws, is_prime_partiality.2 0 (by decide)⟩

/-! ### C4: the `2^s * r` factorization in `rabin_miller` -/

theorem factorLoop_exact (fuel : Nat) : ∀ s r : Nat, 1 ≤ r → r ≤ 2 ^ 54 →
    r ≤ fuel →
    (factorLoop fuel s r).2 % 2 = 1 ∧
      2 ^ (factorLoop fuel s r).1 * (factorLoop fuel s r).2 = 2 ^ s * r := by
  induction fuel with
  | zero => intro s r h1 _ hf; omega
  | succ f ih =>
    intro s r h1 h54 hf
    have hx : (2 : Nat) ^ 54 = 2 ^ 53 * 2 := pow_succ 2 53
    by_cases hr : r % 2 = 0
    · have hhalf : intHalf r = r / 2 := by
        unfold intHalf rnd53
        rw [if_pos (by omega : r / 2 ≤ 2 ^ 53)]
      have hrec := ih (s + 1) (r / 2) (by omega) (by omega) (by omega)
      simp only [factorLoop, if_pos hr, hhalf]
      refine ⟨hrec.1, ?_⟩
      rw [hrec.2, pow_succ]
      have h2r : 2 * (r / 2) = r := by omega
      calc 2 ^ s * 2 * (r / 2) = 2 ^ s * (2 * (r / 2)) := by ring
        _ = 2 ^ s * r := by rw [h2r]
    · simp only [factorLoop, if_neg hr]
      exact ⟨by omega, by trivial⟩

/-- C4 (counterexample): for the odd candidate `2^54 + 3`, the halving loop
does NOT produce `candidate - 1 = 2^s * r`: the first `int(r/2)` computes
`int((2^54+2)/2)`, whose true quotient `2^53 + 1` is not representable as a
double and rounds (ties-to-even) to `2^53`, so the `+1` is lost and the loop
ends with `(s, r) = (54, 1)` although `2^54 ≠ 2^54 + 2`. -/
theorem rabin_miller_factorization_cex :
    (2 ^ 54 + 3) % 2 = 1 ∧ 3 ≤ 2 ^ 54 + 3 ∧
      ¬((2 ^ 54 + 3) - 1 =
        2 ^ (factorOut ((2 ^ 54 + 3) - 1)).1 * (factorOut ((2 ^ 54 + 3) - 1)).2) := by
  decide

/-- C4 (amended): for every odd candidate `c` with `3 ≤ c ≤ 2^54 + 1` (so
that every quotient taken by `int(r/2)` stays exactly representable as a
double), the values `(s, r) = factorOut (c-1)` computed at the start of
`rabin_miller` satisfy `c - 1 = 2^s * r` with `r` odd — independently of the
witness, which the loop never consults. -/
theorem rabin_miller_factorization_amended (c : Nat) (hodd : c % 2 = 1)
    (h3 : 3 ≤ c) (hub : c ≤ 2 ^ 54 + 1) :
    c - 1 = 2 ^ (factorOut (c - 1)).1 * (factorOut (c - 1)).2 ∧
      (factorOut (c - 1)).2 % 2 = 1 := by
  unfold factorOut
  have h := factorLoop_exact (c - 1) 0 (c - 1) (by omega) (by omega) le_rfl
  refine ⟨?_, h.1⟩
  rw [h.2, pow_zero, one_mul]

/-- C4 (witness): the amended statement instantiated at the odd candidate
341 (where `factorOut 340 = (2, 85)`). -/
theorem rabin_miller_factorization_witness :
    341 - 1 = 2 ^ (factorOut (341 - 1)).1 * (factorOut (341 - 1)).2 ∧
      (factorOut (341 - 1)).2 % 2 = 1 :=
  rabin_miller_factorization_amended 341 (by decide) (by decide) (by norm_num)

/-! ### C7: `new_random_prime` returns an odd value that passed `is_prime` -/

theorem primeSearch_result (wd : Nat → Nat → Nat) (fuel : Nat) :
    ∀ cand i p : Nat, cand % 2 = 1 → primeSearch wd fuel cand i = some p →
      p % 2 = 1 ∧ ∃ j, is_prime p (wd j) = some true := by
  induction fuel with
  | zero =>
    intro cand i p _ h
    exact absurd h (by simp [primeSearch])
  | succ f ih =>
    intro cand i p hodd h
    have hunf : primeSearch wd (f + 1) cand i =
        match is_prime cand (wd i) with
        | Option.none => Option.none
        | some true => some cand
        | some false => primeSearch wd f (cand + 2) (i + 1) := rfl
    rw [hunf] at h
    rcases hm : is_prime cand (wd i) with _ | b
    · rw [hm] at h
      simp at h
    · rw [hm] at h
      cases b
      · exact ih (cand + 2) (i + 1) p (by omega) h
      · have hcp : cand = p := by
          simpa using h
        subst hcp
        exact ⟨hodd, ⟨i, hm⟩⟩

/-- C7: whenever `new_random_prime` terminates with a value `p` (for any
byte draw and any witness-draw streams), `p` is odd and the `is_prime` call
that ended the search returned `true` for `p`. -/
theorem new_random_prime_odd_and_passes (octets : List Nat)
    (wd : Nat → Nat → Nat) (fuel p : Nat)
    (h : new_random_prime octets wd fuel = some p) :
    p % 2 = 1 ∧ ∃ j, is_prime p (wd j) = some true := by
  have h' : primeSearch wd fuel
      (if string_to_int octets % 2 = 0 then string_to_int octets + 1
       else string_to_int octets) 0 = some p := h
  refine primeSearch_result wd fuel _ 0 p ?_ h'
  by_cases hev : string_to_int octets % 2 = 0
  · rw [if_pos hev]; omega
  · rw [if_neg hev]; omega

/-- C7 (witness): the theorem applied to the byte string `[3]`, on which the
search returns 3 at once. -/
theorem new_random_prime_odd_and_passes_witness :
    (3 : Nat) % 2 = 1 ∧ ∃ j, is_prime 3 (flatWitnessStream j) = some true :=
  new_random_prime_odd_and_passes [3] flatWitnessStream 1 3 (by decide)

/-! ### C8: the Euclidean `gcd` under Python floor-modulus semantics -/

theorem int_gcd_step (m n : Nat) :
    Int.gcd (n : Int) ((m : Int) % (n : Int)) = Int.gcd (m : Int) (n : Int) := by
  rw [← Int.ofNat_emod]
  simp only [Int.gcd, Int.natAbs_ofNat]
  rw [Nat.gcd_comm n (m % n), ← Nat.gcd_rec n m, Nat.gcd_comm n m]

theorem pygcdGo_nonneg (fuel : Nat) : ∀ a b : Int, 0 ≤ a → 0 ≤ b →
    b.natAbs < fuel → pygcdGo fuel a b = Int.gcd a b := by
  induction fuel with
  | zero => intro a b _ _ h; omega
  | succ f ih =>
    intro a b ha hb hf
    by_cases hb0 : b = 0
    · subst hb0
      simp only [pygcdGo, if_pos rfl]
      rw [Int.gcd_zero_right]
      exact (Int.natAbs_of_nonneg ha).symm
    · have hbpos : 0 < b := lt_of_le_of_ne hb (Ne.symm hb0)
      have hfm : Int.fmod a b = a % b := Int.fmod_eq_emod a hb
      have hnn : (0 : Int) ≤ a % b := Int.emod_nonneg a hb0
      have hlt : a % b < b := Int.emod_lt_of_pos a hbpos
      simp only [pygcdGo, if_neg hb0, hfm]
      rw [ih b (a % b) hb hnn (by omega)]
      obtain ⟨m, rfl⟩ := Int.eq_ofNat_of_zero_le ha
      obtain ⟨n, rfl⟩ := Int.eq_ofNat_of_zero_le hb
      rw [int_gcd_step m n]

/-- C8 (counterexample): Python `%` takes the sign of the divisor, so
`gcd(4, -6)` walks through `(−6, −2)` and returns `−2`: the result is
negative, and `gcd(4, -6) ≠ gcd(-6, 4) = 2`, refuting both the
nonnegativity and the symmetry asserted by the claim. -/
theorem pygcd_cex :
    pygcd 4 (-6) = -2 ∧ pygcd (-6) 4 = 2 ∧ ¬(0 : Int) ≤ pygcd 4 (-6) ∧
      pygcd 4 (-6) ≠ pygcd (-6) 4 := by
  decide

/-- C8 (amended): `gcd(a, 0) = a` for every integer `a` (with the sign of
`a`, not always nonnegative); and restricted to nonnegative arguments the
function returns the nonnegative greatest common divisor and is symmetric. -/
theorem pygcd_amended :
    (∀ a : Int, pygcd a 0 = a) ∧
    (∀ a b : Int, 0 ≤ a → 0 ≤ b →
      pygcd a b = Int.gcd a b ∧ pygcd a b = pygcd b a) := by
  constructor
  · intro a; rfl
  · intro a b ha hb
    have h1 : pygcd a b = Int.gcd a b :=
      pygcdGo_nonneg (b.natAbs + 1) a b ha hb (Nat.lt_succ_self _)
    have h2 : pygcd b a = Int.gcd b a :=
      pygcdGo_nonneg (a.natAbs + 1) b a hb ha (Nat.lt_succ_self _)
    refine ⟨h1, ?_⟩
    rw [h1, h2, Int.gcd_comm]

/-- C8 (witness): the amended statement applied at `(12, 0)` and `(12, 18)`. -/
theorem pygcd_amended_witness :
    pygcd 12 0 = 12 ∧ (pygcd 12 18 = Int.gcd 12 18 ∧ pygcd 12 18 = pygcd 18 12) :=
  ⟨pygcd_amended.1 12, pygcd_amended.2 12 18 (by decide) (by decide)⟩

/-! ### C1, C9: `generate_keypair` -/

theorem generate_keypair_first_draw (p q : Int) (bo : Nat → List Nat)
    (wo : Nat → Nat → Nat → Nat) (pfuel : Nat) (ed : Nat → Int)
    (efuel rfuel : Nat) (hef : efuel ≠ 0) (hpq : p ≠ q)
    (hphi : 1 < (p - 1) * (q - 1))
    (hg : pygcd (ed 0) ((p - 1) * (q - 1)) = 1) :
    generate_keypair p q bo wo pfuel ed efuel rfuel =
      some ((ed 0, p * q),
        (multiplicative_inverse ((ed 0 : Int) : ℚ) (((p - 1) * (q - 1) : Int) : ℚ),
          p * q)) := by
  obtain ⟨k, rfl⟩ := Nat.exists_eq_succ_of_ne_zero hef
  have hrd : redrawLoop bo wo pfuel p rfuel q = some q := by
    cases rfuel with
    | zero => simp only [redrawLoop, if_neg hpq]
    | succ j => simp only [redrawLoop, if_neg hpq]
  have hes : exponentSearch ed ((p - 1) * (q - 1)) (k + 1) 0 = some (ed 0) := by
    simp only [exponentSearch, if_pos hg]
  unfold generate_keypair
  rw [hrd]
  simp only [if_neg (not_le.mpr hphi), hes]

/-- C1 (code_bug evidence): on the spec's own concrete scenario
`p = 61, q = 53` (`n = 3233`, `phi = 3120`) with the exponent draw `e = 17`,
the code returns `d = 3121` instead of the correct inverse `2753`, and
`(17 * 3121) mod 3120 = 17 ≠ 1`, violating the claimed invariant.  (At this
input the float evaluation is exact: `3120/17` rounds to a double `t` with
`t*17 = 3120 + 2^-45`, which rounds back to `3120.0`, so `temp2 = 0.0` and
the loop returns `1 + phi`.) -/
theorem generate_keypair_spec_scenario_violates_invariant :
    generate_keypair 61 53 noBytes noWitness 0 drawSeventeen 1 0 =
      some ((17, 3233), ((3121 : ℚ), 3233)) ∧
      ¬((17 * 3121 : Int) % 3120 = 1) := by
  constructor
  · have h := generate_keypair_first_draw 61 53 noBytes noWitness 0
      drawSeventeen 1 0 (by decide) (by decide) (by decide) (by decide)
    rw [h]
    have hd : multiplicative_inverse ((drawSeventeen 0 : Int) : ℚ)
        ((((61 : Int) - 1) * (53 - 1) : Int) : ℚ) = 3121 := by
      rw [show ((drawSeventeen 0 : Int) : ℚ) = 17 by norm_num [drawSeventeen],
        show ((((61 : Int) - 1) * (53 - 1) : Int) : ℚ) = 3120 by norm_num,
        multiplicative_inverse_of_pos 17 3120 (by norm_num)]
      norm_num
    rw [hd]
    norm_num [drawSeventeen]
  · decide

/-- C9 (counterexample): for the malformed unequal pair `p = 1, q = 2`
(`phi = 0 ≤ 1`), `generate_keypair` does NOT return a keypair: the call
`random.randrange(1, phi)` has an empty range and raises `ValueError`. -/
theorem generate_keypair_phi_le_one_cex :
    generate_keypair 1 2 noBytes noWitness 0 drawFive 1 0 = Option.none := by
  decide

/-- C9 (amended): for unequal inputs whose totient `phi = (p-1)(q-1)`
exceeds 1 — in particular for non-prime `p`, `q` — the call silently returns
a keypair whenever the exponent search terminates (here: the first draw is
already coprime to `phi`); but when `phi ≤ 1` the exponent draw raises
`ValueError` instead of returning a silently incorrect keypair. -/
theorem generate_keypair_malformed_amended (p q : Int) (bo : Nat → List Nat)
    (wo : Nat → Nat → Nat → Nat) (pfuel : Nat) (ed : Nat → Int)
    (efuel rfuel : Nat) (hef : efuel ≠ 0) (hpq : p ≠ q)
    (hphi : 1 < (p - 1) * (q - 1))
    (hg : pygcd (ed 0) ((p - 1) * (q - 1)) = 1) :
    generate_keypair p q bo wo pfuel ed efuel rfuel =
      some ((ed 0, p * q),
        (multiplicative_inverse ((ed 0 : Int) : ℚ) (((p - 1) * (q - 1) : Int) : ℚ),
          p * q)) :=
  generate_keypair_first_draw p q bo wo pfuel ed efuel rfuel hef hpq hphi hg

/-- C9 (witness): the amended statement applied to the malformed pair
`p = 4, q = 9` (both composite, `phi = 24`) with first exponent draw 5. -/
theorem generate_keypair_malformed_witness :
    generate_keypair 4 9 noBytes noWitness 0 drawFive 1 0 =
      some ((drawFive 0, 4 * 9),
        (multiplicative_inverse ((drawFive 0 : Int) : ℚ)
          ((((4 : Int) - 1) * (9 - 1) : Int) : ℚ), 4 * 9)) :=
  generate_keypair_malformed_amended 4 9 noBytes noWitness 0 drawFive 1 0
    (by decide) (by decide) (by decide) (by decide)
